import Mathlib

/-!
Verification of the Round Resolution Engine of a browser slot game.

The embedding translates, from the TypeScript source:
* `gameLogic.ts`: the weighted symbol generator (`generateWeightedSymbol`
  with its fixed weight table and fallback), `checkSmallYakuMatch`,
  `isPremiumFlag`, `checkPremiumFlag`, `generatePremiumFlag`;
* `GameScreen.tsx`: the per-round state machine (`startNewRound`,
  `startSpin`, `stopReel`, `checkRoundResult`, `showBlackoutAndProceed`,
  `showBlackoutAndEnd`);
* `PremiumModal.tsx`: the fair coin flip deciding the premium sub-event.

Randomness is ambient `Math.random()` in the source; here every random
draw is passed explicitly as a rational parameter.  The `setTimeout`
continuation that runs after a spin's third reel stops is modelled as a
`Pending` field consumed by a `timeout` event, and a modal's close
handler (which in the source always calls `showBlackoutAndProceed`) is
folded into the round-result step.
-/

namespace SlotGame

/-- The six reel symbols of `types.ts`:
`'🍒' | '🍋' | '🍇' | '💎' | '🔔' | '🌠'`. -/
inductive Symbol where
  | cherry
  | lemon
  | grape
  | diamond
  | bell
  | star
deriving DecidableEq, Repr

/-- The symbol list `SYMBOLS` of `gameLogic.ts`, in source order. -/
def SYMBOLS : List Symbol :=
  [Symbol.cherry, Symbol.lemon, Symbol.grape, Symbol.diamond, Symbol.bell, Symbol.star]

/-- The weight table `BASE_SYMBOL_WEIGHTS` of `gameLogic.ts`, in the
iteration order of `Object.entries`; `95/4 = 23.75` and `9/2 = 4.5`
are the source's decimal weights. -/
def BASE_SYMBOL_WEIGHTS : List (Symbol × ℚ) :=
  [(Symbol.cherry, 1), (Symbol.lemon, (95 : ℚ)/4), (Symbol.grape, (95 : ℚ)/4),
   (Symbol.diamond, (95 : ℚ)/4), (Symbol.bell, (95 : ℚ)/4), (Symbol.star, (9 : ℚ)/2)]

/-- The `totalWeight` computed inside `generateWeightedSymbol`. -/
def totalWeight : ℚ :=
  (BASE_SYMBOL_WEIGHTS.map Prod.snd).foldl (fun a b => a + b) 0

/-- The `for (const [symbol, weight] of Object.entries(...))` loop of
`generateWeightedSymbol`: subtract each weight in table order and return
the first symbol at which the running value is `≤ 0`; when the table is
exhausted, return the fallback `'🍋'`. -/
def genLoop : List (Symbol × ℚ) → ℚ → Symbol
  | [], _ => Symbol.lemon
  | (s, w) :: rest, random =>
      if random - w ≤ 0 then s else genLoop rest (random - w)

/-- `generateWeightedSymbol` of `gameLogic.ts`.  The source draws
`Math.random() * totalWeight` ambiently; here the already-scaled draw is
the explicit argument.  The function declares no other parameters: the
`continueRate` value that `GameScreen.stopReel` passes at its call site
is silently discarded by JavaScript. -/
def generateWeightedSymbol (random : ℚ) : Symbol :=
  genLoop BASE_SYMBOL_WEIGHTS random

/-- `checkSmallYakuMatch` of `gameLogic.ts`: length must be 3, all three
symbols equal, and the common symbol is neither `'🍒'` nor `'🌠'`. -/
def checkSmallYakuMatch (symbols : List Symbol) : Bool :=
  match symbols with
  | [s0, s1, s2] =>
      s0 == s1 && s1 == s2 && s0 != Symbol.cherry && s0 != Symbol.star
  | _ => false

/-- `isPremiumFlag` of `gameLogic.ts`: length 3 and every symbol `'🌠'`. -/
def isPremiumFlag (symbols : List Symbol) : Bool :=
  symbols.length == 3 && symbols.all (fun s => s == Symbol.star)

/-- `checkPremiumFlag` of `gameLogic.ts`: the body is
`return Math.random() < 1;` (its comment claims a 1/319 chance). -/
def checkPremiumFlag (random : ℚ) : Bool :=
  random < 1

/-- `generatePremiumFlag` of `gameLogic.ts`: three copies of `'🌠'`. -/
def generatePremiumFlag : List Symbol :=
  [Symbol.star, Symbol.star, Symbol.star]

/-- The derived round classification computed at the top of
`checkRoundResult` in `GameScreen.tsx`. -/
structure Classification where
  cherryCount : Nat
  hasSmallYaku : Bool
  hasPremiumFlag : Bool
deriving DecidableEq, Repr

/-- One pass of the `for (const spinResult of finalSpinResults)` loop in
`checkRoundResult`: add the spin's cherry occurrences and accumulate the
small-yaku and premium flags. -/
def classifyStep (acc : Classification) (spinResult : List Symbol) : Classification :=
  { cherryCount := acc.cherryCount + spinResult.count Symbol.cherry,
    hasSmallYaku := acc.hasSmallYaku || checkSmallYakuMatch spinResult,
    hasPremiumFlag := acc.hasPremiumFlag || isPremiumFlag spinResult }

/-- The classification loop of `checkRoundResult` (`GameScreen.tsx`),
run left to right over the accumulated spin results. -/
def classify (finalSpinResults : List (List Symbol)) : Classification :=
  finalSpinResults.foldl classifyStep ⟨0, false, false⟩

/-- The four observable round outcomes of the branch cascade in
`checkRoundResult`: a plain blackout-and-proceed, a drink-modal reveal
followed by proceed, the premium modal, or blackout-and-end. -/
inductive RoundOutcome where
  | Continue
  | ContinueWithBonusReveal
  | PremiumSubEvent
  | Terminate
deriving DecidableEq, Repr

/-- The branch cascade of `checkRoundResult` (`GameScreen.tsx`), as a
function of the classification, the session's continue rate, and the one
`Math.random()` draw the taken branch consumes (each invocation reaches
at most one draw site). -/
def resolve (c : Classification) (rate : ℚ) (draw : ℚ) : RoundOutcome :=
  if c.hasPremiumFlag then RoundOutcome.PremiumSubEvent
  else if 0 < c.cherryCount then
    if 3 ≤ c.cherryCount then RoundOutcome.ContinueWithBonusReveal
    else if 2 ≤ c.cherryCount then
      if draw < (3 : ℚ)/10 then RoundOutcome.ContinueWithBonusReveal else RoundOutcome.Continue
    else RoundOutcome.Continue
  else if c.hasSmallYaku then
    if draw < (1 : ℚ)/5 then RoundOutcome.ContinueWithBonusReveal else RoundOutcome.Continue
  else if draw < rate then RoundOutcome.Continue
  else RoundOutcome.Terminate

/-- The two outcomes of the premium sub-event (`PremiumModal.tsx`). -/
inductive PremiumChoice where
  | everyone
  | self
deriving DecidableEq, Repr

/-- The coin flip of `PremiumModal.tsx`:
`Math.random() < 0.5 ? 'everyone' : 'self'`. -/
def premiumResult (draw : ℚ) : PremiumChoice :=
  if draw < (1 : ℚ)/2 then PremiumChoice.everyone else PremiumChoice.self

/-- A continuation scheduled by `setTimeout` inside `stopReel`: either
nothing is pending, the next spin is about to start, or
`checkRoundResult` is about to run on the captured spin results. -/
inductive Pending where
  | idle
  | toNext (spinIndex : Nat)
  | toCheck (results : List (List Symbol))
deriving DecidableEq, Repr

/-- The component state of `GameScreen.tsx` that the engine touches.
`reels` holds `none` for the spinning placeholder; `gameOver = some n`
records that `onGameEnd(n)` has fired. -/
structure GameState where
  remainingStops : Int
  continueCount : Nat
  reels : List (Option Symbol)
  isSpinning : List Bool
  currentSpinIndex : Nat
  allSpinResults : List (List Symbol)
  pending : Pending
  gameOver : Option Nat
deriving DecidableEq, Repr

/-- The `newSpinning.every(s => !s)` test of `stopReel`. -/
def allStopped (l : List Bool) : Bool :=
  l.all (fun s => !s)

/-- `startSpin` of `GameScreen.tsx`. -/
def startSpin (spinIndex : Nat) (g : GameState) : GameState :=
  if 3 ≤ spinIndex then g
  else
    { g with currentSpinIndex := spinIndex,
             isSpinning := [true, true, true],
             reels := [none, none, none] }

/-- `startNewRound` of `GameScreen.tsx`. -/
def startNewRound (g : GameState) : GameState :=
  startSpin 0
    { g with allSpinResults := [],
             remainingStops := 9,
             currentSpinIndex := 0,
             reels := [none, none, none],
             isSpinning := [false, false, false] }

/-- `showBlackoutAndProceed` of `GameScreen.tsx`: increment the streak
counter and (after the RUSH overlay delay) start a fresh round. -/
def showBlackoutAndProceed (g : GameState) : GameState :=
  startNewRound { g with continueCount := g.continueCount + 1 }

/-- `showBlackoutAndEnd` of `GameScreen.tsx`: after the overlay delay it
calls `onGameEnd(continueCount)`, recorded here in `gameOver`. -/
def showBlackoutAndEnd (g : GameState) : GameState :=
  { g with gameOver := some g.continueCount }

/-- `checkRoundResult` of `GameScreen.tsx` acting on the state: classify
the accumulated results, run the branch cascade, and either end the
session or proceed.  Both modals' close handlers call
`showBlackoutAndProceed`, so every non-`Terminate` outcome proceeds. -/
def checkRoundResult (rate : ℚ) (draw : ℚ)
    (finalSpinResults : List (List Symbol)) (g : GameState) : GameState :=
  match resolve (classify finalSpinResults) rate draw with
  | RoundOutcome.Terminate => showBlackoutAndEnd g
  | _ => showBlackoutAndProceed g

/-- `stopReel` of `GameScreen.tsx`.  The guard
`if (!isSpinning[reelIndex]) return;` makes the call a no-op on a
stopped reel and on any out-of-range index.  The `rate` parameter is the
captured `continueRate` that the source passes to
`generateWeightedSymbol`, whose declaration ignores it.  When the last
reel of the spin stops, the source schedules the follow-up decision via
`setTimeout`; the decision (early exit to `checkRoundResult`, next spin,
or final `checkRoundResult`) depends only on values captured at
scheduling time, so it is recorded here in `pending`. -/
def stopReel (rate : ℚ) (g : GameState) (reelIndex : Nat) (draw : ℚ) : GameState :=
  if g.isSpinning.getD reelIndex false = false then g
  else
    let newSymbol := generateWeightedSymbol draw
    let newReels := g.reels.set reelIndex (some newSymbol)
    let newSpinning := g.isSpinning.set reelIndex false
    let g' : GameState :=
      { g with reels := newReels,
               isSpinning := newSpinning,
               remainingStops := g.remainingStops - 1 }
    if allStopped newSpinning then
      let spinSyms := newReels.reduceOption
      let newAllSpinResults := g.allSpinResults ++ [spinSyms]
      if spinSyms.contains Symbol.cherry || checkSmallYakuMatch spinSyms then
        { g' with allSpinResults := newAllSpinResults,
                  pending := Pending.toCheck newAllSpinResults }
      else if g.currentSpinIndex < 2 then
        { g' with allSpinResults := newAllSpinResults,
                  pending := Pending.toNext (g.currentSpinIndex + 1) }
      else
        { g' with allSpinResults := newAllSpinResults,
                  pending := Pending.toCheck newAllSpinResults }
    else g'

/-- An external stimulus: a reel-stop request (with the symbol draw it
would consume) or the firing of the pending `setTimeout` continuation
(with the draw `checkRoundResult` would consume). -/
inductive Event where
  | stop (reelIndex : Nat) (draw : ℚ)
  | timeout (draw : ℚ)

/-- One engine step under a fixed session `ContinueRate`. -/
def step (rate : ℚ) (g : GameState) : Event → GameState
  | Event.stop reelIndex draw => stopReel rate g reelIndex draw
  | Event.timeout draw =>
      match g.pending with
      | Pending.idle => g
      | Pending.toNext spinIndex => startSpin spinIndex { g with pending := Pending.idle }
      | Pending.toCheck results => checkRoundResult rate draw results { g with pending := Pending.idle }

/-- The state of `GameScreen` right after its mount effect runs
`startNewRound()`. -/
def initialState : GameState :=
  startNewRound
    { remainingStops := 9, continueCount := 0,
      reels := [none, none, none], isSpinning := [false, false, false],
      currentSpinIndex := 0, allSpinResults := [],
      pending := Pending.idle, gameOver := none }

/-- States reachable from the freshly mounted screen by engine steps. -/
inductive Reachable (rate : ℚ) : GameState → Prop
  | init : Reachable rate initialState
  | next {g : GameState} (hg : Reachable rate g) (e : Event) : Reachable rate (step rate g e)

/-- Folding a list of reel-stop requests, each with its draw, into the
state: the stop-only fragment of a session trace. -/
def runStops (rate : ℚ) : GameState → List (Nat × ℚ) → GameState
  | g, [] => g
  | g, (reelIndex, draw) :: rest => runStops rate (stopReel rate g reelIndex draw) rest

/-- A spin result that does not trigger the early exit in `stopReel`:
no cherry on any reel and not a small yaku. -/
def cleanSpin (spin : List Symbol) : Bool :=
  !(spin.contains Symbol.cherry) && !(checkSmallYakuMatch spin)

/-- Every spin recorded in the list is clean. -/
def recordClean (r : List (List Symbol)) : Prop :=
  ∀ spin ∈ r, cleanSpin spin = true

/-- The early-exit test `stopReel` applies to the spin that just
completed: `newReels.includes('🍒') || checkSmallYakuMatch(newReels)`. -/
def earlyExitLatest (spin : List Symbol) : Bool :=
  spin.contains Symbol.cherry || checkSmallYakuMatch spin

/-- The early-exit condition the specification states over the entire
accumulated round record: a positive cherry count or a small yaku in the
classification of the whole record. -/
def earlyExitRecord (record : List (List Symbol)) : Bool :=
  decide (0 < (classify record).cherryCount) || (classify record).hasSmallYaku

/-- A concrete three-stop trace from the fresh state: each draw `2`
resolves a reel to `'🍋'`, so the first spin is a small yaku, the early
exit fires and `checkRoundResult` is pending on that single spin. -/
def demoYakuState : GameState :=
  step ((1 : ℚ)/2)
    (step ((1 : ℚ)/2)
      (step ((1 : ℚ)/2) initialState (Event.stop 0 2))
      (Event.stop 1 2))
    (Event.stop 2 2)

/-- The inductive invariant of the `GameScreen` state machine.  It pins
down, for each value of the pending continuation, how long the
accumulated `allSpinResults` record may be, that only its final entry
can contain a cherry or a small yaku, and that reels only spin while
nothing is pending and the session has not ended. -/
structure StateInv (g : GameState) : Prop where
  reelsLen : g.reels.length = 3
  spinLen : g.isSpinning.length = 3
  idxLe : g.currentSpinIndex ≤ 2
  recLe : g.allSpinResults.length ≤ 3
  dropClean : recordClean g.allSpinResults.dropLast
  idleNone : g.pending = Pending.idle → g.gameOver = none →
    g.allSpinResults.length = g.currentSpinIndex ∧ recordClean g.allSpinResults
  nextInv : ∀ idx, g.pending = Pending.toNext idx →
    idx = g.currentSpinIndex + 1 ∧ idx ≤ 2 ∧ g.allSpinResults.length = idx ∧
    recordClean g.allSpinResults ∧ allStopped g.isSpinning = true ∧ g.gameOver = none
  checkInv : ∀ results, g.pending = Pending.toCheck results →
    results = g.allSpinResults ∧ 1 ≤ g.allSpinResults.length ∧
    allStopped g.isSpinning = true ∧ g.gameOver = none
  overInv : ∀ n, g.gameOver = some n →
    g.pending = Pending.idle ∧ allStopped g.isSpinning = true

theorem allStopped_iff {l : List Bool} : allStopped l = true ↔ ∀ b ∈ l, b = false := by
  simp [allStopped]

theorem allStopped_getD {l : List Bool} (h : allStopped l = true) (i : Nat) :
    l.getD i false = false := by
  induction l generalizing i with
  | nil => simp
  | cons b bs ih =>
      rw [allStopped_iff] at h
      cases i with
      | zero => simpa using h b (by simp)
      | succ n =>
          simp only [List.getD_cons_succ]
          exact ih (allStopped_iff.mpr fun x hx => h x (by simp [hx])) n

theorem inv_initial : StateInv initialState := by
  refine ⟨?_, ?_, ?_, ?_, ?_, ?_, ?_, ?_, ?_⟩ <;>
    simp [initialState, startNewRound, startSpin, recordClean]

theorem inv_stopReel {g : GameState} (rate : ℚ) (i : Nat) (d : ℚ) (h : StateInv g) :
    StateInv (stopReel rate g i d) := by
  by_cases hguard : g.isSpinning.getD i false = false
  · unfold stopReel
    rw [if_pos hguard]
    exact h
  · have hspin : g.isSpinning.getD i false = true := by
      cases hv : g.isSpinning.getD i false
      · exact absurd hv hguard
      · rfl
    have hi : i < g.isSpinning.length := by
      by_contra hge
      rw [List.getD_eq_default _ _ (Nat.le_of_not_lt hge)] at hspin
      simp at hspin
    have hnotstopped : allStopped g.isSpinning = false := by
      cases hv : allStopped g.isSpinning
      · rfl
      · have hx := allStopped_getD hv i
        rw [hx] at hspin
        simp at hspin
    have hidle : g.pending = Pending.idle := by
      cases hp : g.pending with
      | idle => rfl
      | toNext idx =>
          have hx := (h.nextInv idx hp).2.2.2.2.1
          rw [hx] at hnotstopped
          simp at hnotstopped
      | toCheck results =>
          have hx := (h.checkInv results hp).2.2.1
          rw [hx] at hnotstopped
          simp at hnotstopped
    have hnone : g.gameOver = none := by
      cases ho : g.gameOver with
      | none => rfl
      | some n =>
          have hx := (h.overInv n ho).2
          rw [hx] at hnotstopped
          simp at hnotstopped
    obtain ⟨hlen, hclean⟩ := h.idleNone hidle hnone
    unfold stopReel
    rw [if_neg hguard]
    dsimp only
    split
    next hall =>
      split
      next hdirty =>
        refine ⟨?_, ?_, ?_, ?_, ?_, ?_, ?_, ?_, ?_⟩
        · simpa using h.reelsLen
        · simpa using h.spinLen
        · exact h.idxLe
        · simpa [hlen] using Nat.succ_le_succ h.idxLe
        · simpa [List.dropLast_concat] using hclean
        · intro hp
          simp at hp
        · intro idx hp
          simp at hp
        · intro results hp
          simp at hp
          refine ⟨hp.symm, ?_, ?_, ?_⟩
          · simp
          · exact hall
          · exact hnone
        · intro n hn
          simp [hnone] at hn
      next hclean2 =>
        split
        next hlt =>
          refine ⟨?_, ?_, ?_, ?_, ?_, ?_, ?_, ?_, ?_⟩
          · simpa using h.reelsLen
          · simpa using h.spinLen
          · exact h.idxLe
          · simpa [hlen] using Nat.succ_le_succ h.idxLe
          · simpa [List.dropLast_concat] using hclean
          · intro hp
            simp at hp
          · intro idx hp
            simp at hp
            subst hp
            refine ⟨rfl, by omega, by simp [hlen], ?_, hall, hnone⟩
            intro spin hs
            rcases List.mem_append.mp hs with hs | hs
            · exact hclean spin hs
            · simp at hs
              subst hs
              simp at hclean2
              simp [cleanSpin, hclean2.1, hclean2.2]
          · intro results hp
            simp at hp
          · intro n hn
            simp [hnone] at hn
        next hge =>
          refine ⟨?_, ?_, ?_, ?_, ?_, ?_, ?_, ?_, ?_⟩
          · simpa using h.reelsLen
          · simpa using h.spinLen
          · exact h.idxLe
          · simpa [hlen] using Nat.succ_le_succ h.idxLe
          · simpa [List.dropLast_concat] using hclean
          · intro hp
            simp at hp
          · intro idx hp
            simp at hp
          · intro results hp
            simp at hp
            refine ⟨hp.symm, ?_, ?_, ?_⟩
            · simp
            · exact hall
            · exact hnone
          · intro n hn
            simp [hnone] at hn
    next hall =>
      refine ⟨?_, ?_, ?_, ?_, ?_, ?_, ?_, ?_, ?_⟩
      · simpa using h.reelsLen
      · simpa using h.spinLen
      · exact h.idxLe
      · exact h.recLe
      · exact h.dropClean
      · intro hp hn
        exact ⟨hlen, hclean⟩
      · intro idx hp
        simp at hp
        rw [hidle] at hp
        simp at hp
      · intro results hp
        simp at hp
        rw [hidle] at hp
        simp at hp
      · intro n hn
        simp [hnone] at hn


theorem inv_proceed {g : GameState} (hidle : g.pending = Pending.idle)
    (hover : g.gameOver = none) : StateInv (showBlackoutAndProceed g) := by
  refine ⟨?_, ?_, ?_, ?_, ?_, ?_, ?_, ?_, ?_⟩ <;>
    simp [showBlackoutAndProceed, startNewRound, startSpin, recordClean, hidle, hover]

theorem inv_timeout {g : GameState} (rate : ℚ) (d : ℚ) (h : StateInv g) :
    StateInv (step rate g (Event.timeout d)) := by
  cases hp : g.pending with
  | idle =>
      simpa [step, hp] using h
  | toNext idx =>
      obtain ⟨hidx, hle, hlen, hclean, hstop, hover⟩ := h.nextInv idx hp
      have h3 : ¬ (3 ≤ idx) := by omega
      simp only [step, hp, startSpin, if_neg h3]
      refine ⟨?_, ?_, ?_, ?_, ?_, ?_, ?_, ?_, ?_⟩
      · simp
      · simp
      · exact hle
      · simpa using h.recLe
      · simpa using h.dropClean
      · intro _ _
        exact ⟨by simpa using hlen, by simpa using hclean⟩
      · intro idx' hq
        simp at hq
      · intro results hq
        simp at hq
      · intro n hn
        simp [hover] at hn
  | toCheck results =>
      obtain ⟨hres, hlen1, hstop, hover⟩ := h.checkInv results hp
      simp only [step, hp]
      cases hro : resolve (classify results) rate d with
      | Terminate =>
          simp only [checkRoundResult, hro, showBlackoutAndEnd]
          refine ⟨?_, ?_, ?_, ?_, ?_, ?_, ?_, ?_, ?_⟩
          · simpa using h.reelsLen
          · simpa using h.spinLen
          · simpa using h.idxLe
          · simpa using h.recLe
          · simpa using h.dropClean
          · intro _ hcontr
            simp at hcontr
          · intro idx' hq
            simp at hq
          · intro results' hq
            simp at hq
          · intro n hn
            exact ⟨rfl, by simpa using hstop⟩
      | Continue =>
          simp only [checkRoundResult, hro]
          exact inv_proceed rfl hover
      | ContinueWithBonusReveal =>
          simp only [checkRoundResult, hro]
          exact inv_proceed rfl hover
      | PremiumSubEvent =>
          simp only [checkRoundResult, hro]
          exact inv_proceed rfl hover

theorem inv_step {g : GameState} (rate : ℚ) (e : Event) (h : StateInv g) :
    StateInv (step rate g e) := by
  cases e with
  | stop i d => exact inv_stopReel rate i d h
  | timeout d => exact inv_timeout rate d h

theorem inv_reachable {rate : ℚ} {g : GameState} (h : Reachable rate g) : StateInv g := by
  induction h with
  | init => exact inv_initial
  | next hg e ih => exact inv_step rate e ih

theorem classify_foldl_cherry (r : List (List Symbol)) (acc : Classification) :
    (r.foldl classifyStep acc).cherryCount
      = acc.cherryCount + (r.map (fun spin => spin.count Symbol.cherry)).sum := by
  induction r generalizing acc with
  | nil => simp
  | cons spin rest ih => simp [classifyStep, ih, Nat.add_assoc]

theorem classify_foldl_yaku (r : List (List Symbol)) (acc : Classification) :
    (r.foldl classifyStep acc).hasSmallYaku
      = (acc.hasSmallYaku || r.any checkSmallYakuMatch) := by
  induction r generalizing acc with
  | nil => simp
  | cons spin rest ih => simp [classifyStep, ih, Bool.or_assoc]

theorem classify_foldl_premium (r : List (List Symbol)) (acc : Classification) :
    (r.foldl classifyStep acc).hasPremiumFlag
      = (acc.hasPremiumFlag || r.any isPremiumFlag) := by
  induction r generalizing acc with
  | nil => simp
  | cons spin rest ih => simp [classifyStep, ih, Bool.or_assoc]

theorem classify_cherryCount (r : List (List Symbol)) :
    (classify r).cherryCount = (r.map (fun spin => spin.count Symbol.cherry)).sum := by
  simpa using classify_foldl_cherry r ⟨0, false, false⟩

theorem classify_hasSmallYaku (r : List (List Symbol)) :
    (classify r).hasSmallYaku = r.any checkSmallYakuMatch := by
  simpa using classify_foldl_yaku r ⟨0, false, false⟩

theorem classify_hasPremiumFlag (r : List (List Symbol)) :
    (classify r).hasPremiumFlag = r.any isPremiumFlag := by
  simpa using classify_foldl_premium r ⟨0, false, false⟩

theorem checkSmallYakuMatch_iff (spin : List Symbol) :
    checkSmallYakuMatch spin = true ↔
      ∃ s, spin = [s, s, s] ∧ s ≠ Symbol.cherry ∧ s ≠ Symbol.star := by
  rcases spin with _ | ⟨a, _ | ⟨b, _ | ⟨c, _ | ⟨e, t⟩⟩⟩⟩ <;>
    simp only [checkSmallYakuMatch] <;> simp
  aesop

theorem isPremiumFlag_iff (spin : List Symbol) :
    isPremiumFlag spin = true ↔ spin = [Symbol.star, Symbol.star, Symbol.star] := by
  rcases spin with _ | ⟨a, _ | ⟨b, _ | ⟨c, _ | ⟨e, t⟩⟩⟩⟩ <;>
    simp [isPremiumFlag, and_assoc]

/-- C3: `classify` is a pure function of the round record returning the
total cherry count over every reel of every recorded spin, whether some
recorded spin is three identical symbols that are neither the cherry nor
the premium symbol, and whether some recorded spin is three premium
symbols. -/
theorem classify_spec (record : List (List Symbol)) :
    (classify record).cherryCount
        = (record.map (fun spin => spin.count Symbol.cherry)).sum ∧
    ((classify record).hasSmallYaku = true ↔
        ∃ spin ∈ record, ∃ s, spin = [s, s, s] ∧
          s ≠ Symbol.cherry ∧ s ≠ Symbol.star) ∧
    ((classify record).hasPremiumFlag = true ↔
        ∃ spin ∈ record, spin = [Symbol.star, Symbol.star, Symbol.star]) := by
  refine ⟨classify_cherryCount record, ?_, ?_⟩
  · rw [classify_hasSmallYaku, List.any_eq_true]
    constructor
    · rintro ⟨spin, hs, hy⟩
      exact ⟨spin, hs, (checkSmallYakuMatch_iff spin).mp hy⟩
    · rintro ⟨spin, hs, hy⟩
      exact ⟨spin, hs, (checkSmallYakuMatch_iff spin).mpr hy⟩
  · rw [classify_hasPremiumFlag, List.any_eq_true]
    constructor
    · rintro ⟨spin, hs, hy⟩
      exact ⟨spin, hs, (isPremiumFlag_iff spin).mp hy⟩
    · rintro ⟨spin, hs, hy⟩
      exact ⟨spin, hs, (isPremiumFlag_iff spin).mpr hy⟩

theorem totalWeight_eq : totalWeight = (201 : ℚ)/2 := by
  norm_num [totalWeight, BASE_SYMBOL_WEIGHTS]

/-- C1: the resolver decides by first match in the source's priority
order — premium flag, then cherry tiers 3+/2/1, then small yaku, then
the continue-rate draw — and `Terminate` is reachable only from the
empty classification. -/
theorem resolve_priority (c : Classification) (rate draw : ℚ) :
    (c.hasPremiumFlag = true →
        resolve c rate draw = RoundOutcome.PremiumSubEvent) ∧
    (c.hasPremiumFlag = false → 3 ≤ c.cherryCount →
        resolve c rate draw = RoundOutcome.ContinueWithBonusReveal) ∧
    (c.hasPremiumFlag = false → c.cherryCount = 2 →
        resolve c rate draw =
          if draw < (3 : ℚ)/10 then RoundOutcome.ContinueWithBonusReveal
          else RoundOutcome.Continue) ∧
    (c.hasPremiumFlag = false → c.cherryCount = 1 →
        resolve c rate draw = RoundOutcome.Continue) ∧
    (c.hasPremiumFlag = false → c.cherryCount = 0 → c.hasSmallYaku = true →
        resolve c rate draw =
          if draw < (1 : ℚ)/5 then RoundOutcome.ContinueWithBonusReveal
          else RoundOutcome.Continue) ∧
    (c.hasPremiumFlag = false → c.cherryCount = 0 → c.hasSmallYaku = false →
        resolve c rate draw =
          if draw < rate then RoundOutcome.Continue
          else RoundOutcome.Terminate) ∧
    (resolve c rate draw = RoundOutcome.Terminate →
        c.cherryCount = 0 ∧ c.hasSmallYaku = false ∧ c.hasPremiumFlag = false) := by
  obtain ⟨cc, sy, pf⟩ := c
  refine ⟨?_, ?_, ?_, ?_, ?_, ?_, ?_⟩
  · intro hp
    simp only at hp
    subst hp
    simp [resolve]
  · intro hp h3
    simp only at hp h3
    subst hp
    simp [resolve, h3, show 0 < cc by omega, show 2 ≤ cc by omega]
  · intro hp h2
    simp only at hp h2
    subst hp
    subst h2
    simp [resolve]
  · intro hp h1
    simp only at hp h1
    subst hp
    subst h1
    simp [resolve]
  · intro hp h0 hy
    simp only at hp h0 hy
    subst hp
    subst h0
    subst hy
    simp [resolve]
  · intro hp h0 hy
    simp only at hp h0 hy
    subst hp
    subst h0
    subst hy
    simp [resolve]
  · intro ht
    simp only [resolve] at ht
    split_ifs at ht <;> simp_all

set_option maxHeartbeats 1000000 in
/-- C6: for every (scaled) draw, the weighted generator returns the
first symbol in table order whose cumulative weight bound the draw does
not exceed — cut points 1, 24.75, 48.5, 72.25, 96 and the total weight
100.5 — with `'🍋'` as the fallback beyond the table; in every case the
result is one of the six fixed symbols. -/
theorem generateWeightedSymbol_spec (r : ℚ) :
    generateWeightedSymbol r =
      (if r ≤ 1 then Symbol.cherry
       else if r ≤ (99 : ℚ)/4 then Symbol.lemon
       else if r ≤ (97 : ℚ)/2 then Symbol.grape
       else if r ≤ (289 : ℚ)/4 then Symbol.diamond
       else if r ≤ 96 then Symbol.bell
       else if r ≤ totalWeight then Symbol.star
       else Symbol.lemon) ∧
    generateWeightedSymbol r ∈ SYMBOLS := by
  have hchain : generateWeightedSymbol r =
      (if r ≤ 1 then Symbol.cherry
       else if r ≤ (99 : ℚ)/4 then Symbol.lemon
       else if r ≤ (97 : ℚ)/2 then Symbol.grape
       else if r ≤ (289 : ℚ)/4 then Symbol.diamond
       else if r ≤ 96 then Symbol.bell
       else if r ≤ totalWeight then Symbol.star
       else Symbol.lemon) := by
    rw [totalWeight_eq]
    simp only [generateWeightedSymbol, BASE_SYMBOL_WEIGHTS, genLoop, sub_nonpos]
    split_ifs <;> first | rfl | linarith
  refine ⟨hchain, ?_⟩
  rw [hchain]
  split_ifs <;> simp [SYMBOLS]

/-- C10: the premium force-trigger gate compares the draw against 1, so
it returns true for every draw in the unit interval — it is
unconditional, not the rare 1/319 gate its comment describes. -/
theorem checkPremiumFlag_always (r : ℚ) (_h0 : 0 ≤ r) (h1 : r < 1) :
    checkPremiumFlag r = true := by
  simp [checkPremiumFlag, h1]

theorem checkPremiumFlag_always_witness : checkPremiumFlag 0 = true :=
  checkPremiumFlag_always 0 (le_refl 0) (by norm_num)

theorem stopReel_of_not_spinning {g : GameState} (rate : ℚ) {i : Nat} (d : ℚ)
    (h : g.isSpinning.getD i false = false) : stopReel rate g i d = g := by
  unfold stopReel
  rw [if_pos h]

theorem getD_set_false {l : List Bool} {i : Nat} (h : i < l.length) :
    (l.set i false).getD i false = false := by
  induction l generalizing i with
  | nil => simp at h
  | cons b bs ih =>
      cases i with
      | zero => simp
      | succ n => simpa using ih (by simpa using h)

theorem stopReel_isSpinning_of_spinning {g : GameState} (rate : ℚ) {i : Nat} (d : ℚ)
    (h : ¬ g.isSpinning.getD i false = false) :
    (stopReel rate g i d).isSpinning = g.isSpinning.set i false := by
  unfold stopReel
  rw [if_neg h]
  dsimp only
  split
  · split
    · rfl
    · split <;> rfl
  · rfl

/-- C5: stopping a reel that is not spinning — already stopped, no
active spin, or an out-of-range index — leaves the whole component
state unchanged, and a second stop of the same reel immediately after a
first one is always a no-op, so no duplicate symbol or record entry can
arise. -/
theorem stopReel_noop (rate rateB : ℚ) (g : GameState) (i : Nat) (d dB : ℚ) :
    (g.isSpinning.getD i false = false → stopReel rate g i d = g) ∧
    stopReel rateB (stopReel rate g i d) i dB = stopReel rate g i d := by
  constructor
  · intro h
    exact stopReel_of_not_spinning rate d h
  · by_cases h : g.isSpinning.getD i false = false
    · rw [stopReel_of_not_spinning rate d h, stopReel_of_not_spinning rateB dB h]
    · have hi : i < g.isSpinning.length := by
        by_contra hge
        rw [List.getD_eq_default _ _ (Nat.le_of_not_lt hge)] at h
        exact h rfl
      apply stopReel_of_not_spinning
      rw [stopReel_isSpinning_of_spinning rate d h]
      exact getD_set_false hi

theorem stopReel_noop_witness :
    stopReel ((1 : ℚ)/2) initialState 5 2 = initialState :=
  (stopReel_noop ((1 : ℚ)/2) ((1 : ℚ)/2) initialState 5 2 2).1 (by decide)

/-- C9: the symbol a stopped reel receives depends only on the ambient
draw, never on the player-selected continue rate: two sessions with
different rates but identical draw sequences produce identical states
under any sequence of reel stops, because `generateWeightedSymbol`
accepts no parameter besides the draw and reads only the fixed weight
table. -/
theorem stopReel_rate_independent (rateA rateB : ℚ) (g : GameState) (i : Nat) (d : ℚ)
    (stops : List (Nat × ℚ)) :
    stopReel rateA g i d = stopReel rateB g i d ∧
    runStops rateA g stops = runStops rateB g stops := by
  constructor
  · rfl
  · induction stops generalizing g with
    | nil => rfl
    | cons p rest ih =>
        cases p with
        | mk j dd =>
            show runStops rateA (stopReel rateA g j dd) rest
              = runStops rateB (stopReel rateB g j dd) rest
            exact ih (stopReel rateA g j dd)

/-- C4: a premium-flagged classification makes the resolver yield the
premium sub-event whatever the continue rate; the sub-event picks
between its two outcomes by a fair coin flip (draw below 0.5); and for
either outcome the round proceeds — the counter is incremented, the
session is not ended, and a fresh round is started. -/
theorem premium_event_spec (c : Classification) (rate draw subDraw : ℚ)
    (results : List (List Symbol)) (g : GameState)
    (hc : c.hasPremiumFlag = true)
    (hr : (classify results).hasPremiumFlag = true) :
    resolve c rate draw = RoundOutcome.PremiumSubEvent ∧
    (premiumResult subDraw = PremiumChoice.everyone ↔ subDraw < (1 : ℚ)/2) ∧
    checkRoundResult rate draw results g = showBlackoutAndProceed g ∧
    (checkRoundResult rate draw results g).continueCount = g.continueCount + 1 ∧
    (checkRoundResult rate draw results g).gameOver = g.gameOver ∧
    (checkRoundResult rate draw results g).allSpinResults = [] ∧
    (checkRoundResult rate draw results g).isSpinning = [true, true, true] := by
  have hres : resolve (classify results) rate draw = RoundOutcome.PremiumSubEvent := by
    simp [resolve, hr]
  have hcr : checkRoundResult rate draw results g = showBlackoutAndProceed g := by
    simp [checkRoundResult, hres]
  refine ⟨by simp [resolve, hc], ?_, hcr, ?_, ?_, ?_, ?_⟩
  · unfold premiumResult
    split_ifs with hd <;> simp <;> linarith
  all_goals rw [hcr]
  all_goals simp [showBlackoutAndProceed, startNewRound, startSpin]

theorem premium_event_spec_witness :
    (checkRoundResult ((1 : ℚ)/2) ((1 : ℚ)/2) [generatePremiumFlag] initialState).continueCount
      = initialState.continueCount + 1 :=
  (premium_event_spec ⟨0, false, true⟩ ((1 : ℚ)/2) ((1 : ℚ)/2) ((1 : ℚ)/2)
    [generatePremiumFlag] initialState rfl (by decide)).2.2.2.1

theorem demoYakuState_reachable : Reachable ((1 : ℚ)/2) demoYakuState :=
  Reachable.next
    (Reachable.next
      (Reachable.next Reachable.init (Event.stop 0 2))
      (Event.stop 1 2))
    (Event.stop 2 2)

/-- C2: in every reachable state the accumulated round record holds at
most three spins; whenever the round-completion check is pending its
record holds between one and three spins; while any reel is still
spinning no recorded spin has a cherry or small yaku (early exit: a
qualifying spin is never followed by another spin); only the final
recorded spin can qualify; firing the completion check either empties
the record for a fresh round or ends the session with the current
counter; and an ended session accepts no further transition — so each
round completes exactly once. -/
theorem round_record_bounds (rate : ℚ) (g : GameState) (h : Reachable rate g) :
    g.allSpinResults.length ≤ 3 ∧
    (∀ results, g.pending = Pending.toCheck results →
      results = g.allSpinResults ∧ 1 ≤ results.length ∧ results.length ≤ 3) ∧
    (allStopped g.isSpinning = false →
      ∀ spin ∈ g.allSpinResults, cleanSpin spin = true) ∧
    (∀ spin ∈ g.allSpinResults.dropLast, cleanSpin spin = true) ∧
    (∀ results d, g.pending = Pending.toCheck results →
      (step rate g (Event.timeout d)).allSpinResults = [] ∨
      (step rate g (Event.timeout d)).gameOver = some g.continueCount) ∧
    (∀ n, g.gameOver = some n → ∀ e, step rate g e = g) := by
  have hinv := inv_reachable h
  refine ⟨hinv.recLe, ?_, ?_, hinv.dropClean, ?_, ?_⟩
  · intro results hp
    obtain ⟨hres, h1, _, _⟩ := hinv.checkInv results hp
    exact ⟨hres, hres ▸ h1, hres ▸ hinv.recLe⟩
  · intro hns
    have hidle : g.pending = Pending.idle := by
      cases hp : g.pending with
      | idle => rfl
      | toNext idx =>
          have hx := (hinv.nextInv idx hp).2.2.2.2.1
          rw [hx] at hns
          exact absurd hns (by simp)
      | toCheck results =>
          have hx := (hinv.checkInv results hp).2.2.1
          rw [hx] at hns
          exact absurd hns (by simp)
    have hnone : g.gameOver = none := by
      cases ho : g.gameOver with
      | none => rfl
      | some n =>
          have hx := (hinv.overInv n ho).2
          rw [hx] at hns
          exact absurd hns (by simp)
    exact (hinv.idleNone hidle hnone).2
  · intro results d hp
    simp only [step, hp]
    cases hro : resolve (classify results) rate d with
    | Terminate =>
        right
        simp [checkRoundResult, hro, showBlackoutAndEnd]
    | Continue =>
        left
        simp [checkRoundResult, hro, showBlackoutAndProceed, startNewRound, startSpin]
    | ContinueWithBonusReveal =>
        left
        simp [checkRoundResult, hro, showBlackoutAndProceed, startNewRound, startSpin]
    | PremiumSubEvent =>
        left
        simp [checkRoundResult, hro, showBlackoutAndProceed, startNewRound, startSpin]
  · intro n hn e
    obtain ⟨hidle, hstop⟩ := hinv.overInv n hn
    cases e with
    | stop i d => exact stopReel_of_not_spinning rate d (allStopped_getD hstop i)
    | timeout d => simp [step, hidle]

theorem round_record_bounds_witness :
    demoYakuState.allSpinResults.length ≤ 3 ∧
    ([[Symbol.lemon, Symbol.lemon, Symbol.lemon]] : List (List Symbol))
        = demoYakuState.allSpinResults := by
  have h := round_record_bounds ((1 : ℚ)/2) demoYakuState demoYakuState_reachable
  refine ⟨h.1, ?_⟩
  exact (h.2.1 [[Symbol.lemon, Symbol.lemon, Symbol.lemon]]
    (by with_unfolding_all decide)).1

theorem cleanSpin_parts {spin : List Symbol} (h : cleanSpin spin = true) :
    spin.count Symbol.cherry = 0 ∧ checkSmallYakuMatch spin = false := by
  simp [cleanSpin] at h
  exact ⟨List.count_eq_zero.mpr h.1, h.2⟩

theorem earlyExitRecord_append (prev : List (List Symbol)) (latest : List Symbol)
    (h : ∀ spin ∈ prev, cleanSpin spin = true) :
    earlyExitRecord (prev ++ [latest]) = earlyExitLatest latest := by
  unfold earlyExitRecord earlyExitLatest
  rw [classify_cherryCount, classify_hasSmallYaku]
  have hsum : ((prev ++ [latest]).map (fun spin => spin.count Symbol.cherry)).sum
      = latest.count Symbol.cherry := by
    rw [List.map_append, List.sum_append]
    have hz : (prev.map (fun spin => spin.count Symbol.cherry)).sum = 0 := by
      apply List.sum_eq_zero
      intro x hx
      obtain ⟨spin, hs, rfl⟩ := List.mem_map.mp hx
      exact (cleanSpin_parts (h spin hs)).1
    simp [hz]
  have hany : (prev ++ [latest]).any checkSmallYakuMatch
      = checkSmallYakuMatch latest := by
    rw [List.any_append]
    have hz : prev.any checkSmallYakuMatch = false := by
      rw [List.any_eq_false]
      intro spin hs
      simp [(cleanSpin_parts (h spin hs)).2]
    simp [hz]
  rw [hsum, hany]
  cases hc : latest.contains Symbol.cherry with
  | true =>
      have hmem : Symbol.cherry ∈ latest := List.elem_iff.mp hc
      simp [List.count_pos_iff.mpr hmem]
  | false =>
      have hnot : Symbol.cherry ∉ latest := by
        simpa using hc
      simp [List.count_eq_zero.mpr hnot]

/-- C7: for every reachable state whose accumulated record ends in the
spin that just completed, the early-exit test `stopReel` evaluates on
that latest spin alone agrees with the classifier evaluated on the
entire accumulated round record — the refinement the specification
states in 4.2. -/
theorem early_exit_equiv (rate : ℚ) (g : GameState) (h : Reachable rate g)
    (prev : List (List Symbol)) (latest : List Symbol)
    (hrec : g.allSpinResults = prev ++ [latest]) :
    earlyExitLatest latest = earlyExitRecord (prev ++ [latest]) := by
  have hinv := inv_reachable h
  have hclean : ∀ spin ∈ prev, cleanSpin spin = true := by
    have hd := hinv.dropClean
    rw [hrec, List.dropLast_concat] at hd
    exact hd
  exact (earlyExitRecord_append prev latest hclean).symm

theorem early_exit_equiv_witness :
    earlyExitLatest [Symbol.lemon, Symbol.lemon, Symbol.lemon]
      = earlyExitRecord ([] ++ [[Symbol.lemon, Symbol.lemon, Symbol.lemon]]) :=
  early_exit_equiv ((1 : ℚ)/2) demoYakuState demoYakuState_reachable
    [] [Symbol.lemon, Symbol.lemon, Symbol.lemon] (by with_unfolding_all decide)

/-- C8: the session counter starts at zero; firing the pending
completion check increments it by exactly one and starts a fresh round
on every non-terminating outcome, and leaves it unchanged on
`Terminate`, ending the session with exactly that value. -/
theorem continue_count_spec (rate draw : ℚ) (g : GameState)
    (results : List (List Symbol))
    (hp : g.pending = Pending.toCheck results) :
    initialState.continueCount = 0 ∧
    (resolve (classify results) rate draw = RoundOutcome.Terminate →
      (step rate g (Event.timeout draw)).continueCount = g.continueCount ∧
      (step rate g (Event.timeout draw)).gameOver = some g.continueCount) ∧
    (resolve (classify results) rate draw ≠ RoundOutcome.Terminate →
      (step rate g (Event.timeout draw)).continueCount = g.continueCount + 1 ∧
      (step rate g (Event.timeout draw)).gameOver = g.gameOver ∧
      (step rate g (Event.timeout draw)).allSpinResults = [] ∧
      (step rate g (Event.timeout draw)).isSpinning = [true, true, true]) := by
  refine ⟨by simp [initialState, startNewRound, startSpin], ?_, ?_⟩
  · intro ht
    simp [step, hp, checkRoundResult, ht, showBlackoutAndEnd]
  · intro hne
    cases hro : resolve (classify results) rate draw with
    | Terminate => exact absurd hro hne
    | Continue =>
        simp [step, hp, checkRoundResult, hro, showBlackoutAndProceed,
          startNewRound, startSpin]
    | ContinueWithBonusReveal =>
        simp [step, hp, checkRoundResult, hro, showBlackoutAndProceed,
          startNewRound, startSpin]
    | PremiumSubEvent =>
        simp [step, hp, checkRoundResult, hro, showBlackoutAndProceed,
          startNewRound, startSpin]

theorem continue_count_spec_witness :
    (step ((1 : ℚ)/2) demoYakuState (Event.timeout ((1 : ℚ)/2))).continueCount
        = demoYakuState.continueCount + 1 :=
  ((continue_count_spec ((1 : ℚ)/2) ((1 : ℚ)/2) demoYakuState
      [[Symbol.lemon, Symbol.lemon, Symbol.lemon]]
      (by with_unfolding_all decide)).2.2
    (by with_unfolding_all decide)).1

theorem resolve_priority_witness :
    resolve ⟨0, false, true⟩ ((1 : ℚ)/2) ((1 : ℚ)/2) = RoundOutcome.PremiumSubEvent ∧
    resolve ⟨1, false, false⟩ ((1 : ℚ)/2) ((1 : ℚ)/2) = RoundOutcome.Continue :=
  ⟨(resolve_priority ⟨0, false, true⟩ ((1 : ℚ)/2) ((1 : ℚ)/2)).1 rfl,
   (resolve_priority ⟨1, false, false⟩ ((1 : ℚ)/2) ((1 : ℚ)/2)).2.2.2.1 rfl rfl⟩

end SlotGame
